import Mathlib

/-!
Verification of the IntPy real-interval library.

The development shallowly embeds the Python sources:
  * `intpy/src/support/general.py`  (rational-literal parser, `_mdc`, `rational2fraction`)
  * `src/ireal/ireal.py`            (`_parse_limits`, class `IReal`)
  * `intpy/src/errors.py`           (error kinds)

Binary64 endpoints are embedded as exact rationals (every finite double is a
rational and every arithmetic operation rounds its exact rational result), with
the in-band NaN of the source kept as an explicit `F.nan` constructor.  The
process-wide FP rounding mode is threaded explicitly: every stateful operation
takes the entry mode and returns the exit mode next to its `Except` result,
so that mode preservation is statable also on failing paths.
-/

namespace IntPy

/-- Error kinds, from `intpy/src/errors.py` (plus the Python builtins
`OverflowError` / `ZeroDivisionError` that the sources raise). -/
inductive Err where
  | invalidRational
  | zeroDivision
  | overflow
  | emptyInterval
  | undefinedInterval
deriving DecidableEq

/-! ## Rational parser (`intpy/src/support/general.py`) -/

/-- Numeric value of a decimal digit character. -/
def digitVal (c : Char) : ℕ := c.toNat - '0'.toNat

/-- Python `int(...)` on a string of decimal digits. -/
def digitsToNat (s : List Char) : ℕ := s.foldl (fun n c => 10 * n + digitVal c) 0

/-- The captured groups of `_rational_number_pattern` for the part of the
input before the first `/`.  An absent `frac_after_point` group and an empty
one are both represented by `[]` (the source maps `None` to `""`), and an
absent exponent by `['0']` (the source maps `None` to `"0"`). -/
structure NumParts where
  negSign : Bool
  beforePt : List Char
  afterPt : List Char
  expNeg : Bool
  expDigits : List Char
deriving DecidableEq

/-- Split a string at its first `/`: the optional regex group
`(?:/(?P<denominator>.+))?` group captures everything after the first slash,
because no earlier group can consume a `/`. -/
def splitSlash : List Char → List Char × Option (List Char)
  | [] => ([], none)
  | c :: t =>
    if c = '/' then ([], some t)
    else
      let r := splitSlash t
      (c :: r.1, r.2)

/-- Deterministic match of `sign? digits+ ([.,] digits*)? ([eE] sign? digits+)?`
against the whole pre-slash segment; `none` when the regex fails. -/
def matchNum (s : List Char) : Option NumParts :=
  let sgn : Bool × List Char :=
    match s with
    | '-' :: t => (true, t)
    | '+' :: t => (false, t)
    | _ => (false, s)
  let d1 := sgn.2.span (fun c => c.isDigit)
  if d1.1.isEmpty then none
  else
    let ap : List Char × List Char :=
      match d1.2 with
      | '.' :: t => t.span (fun c => c.isDigit)
      | ',' :: t => t.span (fun c => c.isDigit)
      | _ => ([], d1.2)
    match ap.2 with
    | [] => some ⟨sgn.1, d1.1, ap.1, false, ['0']⟩
    | c :: t =>
      if c = 'e' ∨ c = 'E' then
        let esgn : Bool × List Char :=
          match t with
          | '-' :: u => (true, u)
          | '+' :: u => (false, u)
          | _ => (false, t)
        let ed := esgn.2.span (fun c => c.isDigit)
        if ed.1.isEmpty then none
        else if ed.2.isEmpty then some ⟨sgn.1, d1.1, ap.1, esgn.1, ed.1⟩
        else none
      else none

/-- Range of Python's floor-mod for a negative divisor: the remainder has the
divisor's sign (or is zero) and exceeds the divisor. -/
theorem fmod_bounds_of_neg (a : ℤ) {b : ℤ} (hb : b < 0) :
    b < Int.fmod a b ∧ Int.fmod a b ≤ 0 := by
  obtain ⟨n, rfl⟩ := Int.eq_negSucc_of_lt_zero hb
  cases a with
  | ofNat m =>
    cases m with
    | zero =>
      show Int.negSucc n < Int.fmod 0 (Int.negSucc n) ∧ Int.fmod 0 (Int.negSucc n) ≤ 0
      rw [Int.zero_fmod]
      omega
    | succ k =>
      show Int.negSucc n < Int.subNatNat (k % (n + 1)) n ∧
        Int.subNatNat (k % (n + 1)) n ≤ 0
      rw [Int.subNatNat_eq_coe, Int.negSucc_eq]
      have hk : k % (n + 1) ≤ n := Nat.lt_succ_iff.mp (Nat.mod_lt k (Nat.succ_pos n))
      omega
  | negSucc m =>
    show Int.negSucc n < -(Int.ofNat ((m + 1) % (n + 1))) ∧
      -(Int.ofNat ((m + 1) % (n + 1))) ≤ 0
    rw [Int.ofNat_eq_coe, Int.negSucc_eq]
    have hk : (m + 1) % (n + 1) ≤ n := Nat.lt_succ_iff.mp (Nat.mod_lt (m + 1) (Nat.succ_pos n))
    omega

/-- `_mdc` from `general.py`: Euclid's loop with Python's floor-mod `%`
(`Int.fmod`).  The source would raise `ZeroDivisionError` on a zero divisor;
that branch is unreachable at the only call site and is mapped to `0`. -/
def mdc (a b : ℤ) : ℤ :=
  if hb : b = 0 then 0
  else if Int.fmod a b = 0 then b
  else mdc b (Int.fmod a b)
termination_by b.natAbs
decreasing_by
  rcases lt_trichotomy b 0 with hneg | hzero | hpos
  · have h1 : b < Int.fmod a b := (fmod_bounds_of_neg a hneg).1
    have h2 : Int.fmod a b ≤ 0 := (fmod_bounds_of_neg a hneg).2
    omega
  · exact absurd hzero hb
  · have h1 : 0 ≤ Int.fmod a b := Int.fmod_nonneg' a hpos
    have h2 : Int.fmod a b < b := Int.fmod_lt_of_pos a hpos
    omega

/-- The denominator segment is strictly shorter than the whole input: the
recursion in `rational2fraction` terminates. -/
theorem splitSlash_length (s : List Char) :
    ∀ l, (splitSlash s).2 = some l → l.length < s.length := by
  induction s with
  | nil =>
    intro l h
    simp [splitSlash] at h
  | cons c t ih =>
    intro l h
    rw [splitSlash] at h
    by_cases hc : c = '/'
    · rw [if_pos hc] at h
      simp at h
      subst h
      simp
    · rw [if_neg hc] at h
      simp at h
      have := ih l h
      simp
      omega

/-- Lines 111–121 of `general.py`: build the pair from the matched groups
and the recursively parsed denominator (`a/(b/c)` is `a·c / b`), then reduce
by `_mdc` with Python 2 floor division `/` (`Int.fdiv`). -/
def combine (parts : NumParts) (den : ℤ × ℤ) : ℤ × ℤ :=
  let new_frac : ℤ :=
    (if parts.negSign then -1 else 1) *
      (digitsToNat (parts.beforePt ++ parts.afterPt) : ℤ)
  let new_exponent : ℤ :=
    (if parts.expNeg then -1 else 1) * (digitsToNat parts.expDigits : ℤ) -
      parts.afterPt.length
  let ret : ℤ × ℤ :=
    if new_exponent < 0 then
      (new_frac * den.2, 10 ^ (-new_exponent).toNat * den.1)
    else
      (new_frac * 10 ^ new_exponent.toNat * den.2, den.1)
  let g := mdc ret.1 ret.2
  (Int.fdiv ret.1 g, Int.fdiv ret.2 g)

/-- `rational2fraction` from `general.py`.  The input is `Option`al because
the source recurses on the regex group `denominator`, which is `None` when
no `/` is present (and Python maps absent input to the fraction `(1, 1)`).
Errors: no regex match → `InvalidRationalNumberError`; a zero denominator
sub-expression → `ZeroDivisionError`. -/
def rational2fraction : Option (List Char) → Except Err (ℤ × ℤ)
  | none => .ok (1, 1)
  | some s =>
    match hs : splitSlash s with
    | (numPart, denPart) =>
      match matchNum numPart with
      | none => .error Err.invalidRational
      | some parts =>
        if denPart = some [] then .error Err.invalidRational
        else
          match rational2fraction denPart with
          | .error e => .error e
          | .ok den =>
            if den.1 = 0 then .error Err.zeroDivision
            else .ok (combine parts den)
termination_by s => s.elim 0 fun l => l.length + 1
decreasing_by
  cases denPart with
  | none => simp
  | some l =>
    have h2 : (splitSlash s).2 = some l := by rw [hs]
    have := splitSlash_length s l h2
    simp
    omega

/-! ## Binary64 values

A finite double is an exact rational; the in-band NaN used by `ireal.py` is
kept as an explicit constructor.  Comparisons follow IEEE-754/Python: every
comparison against NaN is false. -/

inductive F where
  | nan
  | fin (q : ℚ)
deriving DecidableEq

namespace F

def isnan : F → Bool
  | nan => true
  | fin _ => false

/-- Python `==` on floats. -/
def feq : F → F → Bool
  | fin a, fin b => decide (a = b)
  | _, _ => false

/-- Python `<` on floats. -/
def flt : F → F → Bool
  | fin a, fin b => decide (a < b)
  | _, _ => false

/-- Python `<=` on floats. -/
def fle : F → F → Bool
  | fin a, fin b => decide (a ≤ b)
  | _, _ => false

/-- Python 2 builtin `min`: keeps the first argument unless the second
compares strictly smaller (so all-NaN inputs yield NaN). -/
def pymin (x y : F) : F := if flt y x then y else x

/-- Python 2 builtin `max`: keeps the first argument unless the second
compares strictly greater. -/
def pymax (x y : F) : F := if flt x y then y else x

/-- Exact sum; NaN operands propagate. -/
def add : F → F → F
  | fin a, fin b => fin (a + b)
  | _, _ => nan

/-- Exact difference; NaN operands propagate. -/
def sub : F → F → F
  | fin a, fin b => fin (a - b)
  | _, _ => nan

/-- Exact product; NaN operands propagate. -/
def mul : F → F → F
  | fin a, fin b => fin (a * b)
  | _, _ => nan

/-- Exact quotient; NaN operands propagate.  A zero divisor would raise
`ZeroDivisionError` in Python; every division in `ireal.py` sits behind a
`0.0 in divisor` guard, so that case is unreachable (Lean maps it to `fin 0`). -/
def div : F → F → F
  | fin a, fin b => fin (a / b)
  | _, _ => nan

/-- Exact negation (sign flip needs no rounding). -/
def neg : F → F
  | fin a => fin (-a)
  | nan => nan

/-- Python `abs` on floats. -/
def fabs : F → F
  | fin a => fin |a|
  | nan => nan

end F

/-- Modelled from the spec: the rounding controller `intpy.support.rounding`
(component C1 of §2, §4.1) is not under `src/`; only its callers are.  Per
§4.1 and §3 the FP rounding mode is a process-wide register read by
`get_mode` and written by `set_mode` (the callers use `-1` = toward −∞,
`0` = to nearest, `1` = toward +∞), and each FP operation rounds its exact
result in the current mode.  `rnd m` is the rounding function of mode `m`;
the two fields state the directedness of modes `-1` and `1` (§8 invariant 2),
which is all the arithmetic layer relies on. -/
structure FPU where
  rnd : ℤ → ℚ → ℚ
  dn_le : ∀ q, rnd (-1) q ≤ q
  le_up : ∀ q, q ≤ rnd 1 q

/-- Perform a float operation whose exact result is `x` under mode `m`:
IEEE-754 correct rounding of the exact value; NaN propagates. -/
def F.rnd (P : FPU) (m : ℤ) : F → F
  | .nan => .nan
  | .fin q => .fin (P.rnd m q)

/-! ### A concrete binary64 rounding (53 significant bits)

Used to run the model on concrete inputs.  `sc q k` is `q · 2^k`. -/

/-- Fuelled ⌊log₂⌋ on positive naturals. -/
def lg2 : ℕ → ℕ → ℕ
  | 0, _ => 0
  | fuel + 1, n => if n ≤ 1 then 0 else lg2 fuel (n / 2) + 1

def natLog2 (n : ℕ) : ℕ := lg2 n n

/-- `q · 2^k`, via `ℕ`-powers only. -/
def sc (q : ℚ) (k : ℤ) : ℚ := if 0 ≤ k then q * 2 ^ k.toNat else q / 2 ^ (-k).toNat

/-- ⌊log₂ q⌋ for positive `q` (unused junk elsewhere). -/
def ratLog2 (q : ℚ) : ℤ :=
  let k : ℤ := (natLog2 q.num.natAbs : ℤ) - (natLog2 q.den : ℤ)
  if sc 1 k ≤ q then k else k - 1

/-- Round a positive rational down to 53 significant bits. -/
def rdnPos (q : ℚ) : ℚ :=
  let s := ratLog2 q - 52
  sc (Int.floor (sc q (-s)) : ℚ) s

/-- Round a positive rational up to 53 significant bits. -/
def rupPos (q : ℚ) : ℚ :=
  let s := ratLog2 q - 52
  sc (Int.ceil (sc q (-s)) : ℚ) s

/-- Round a positive rational to nearest (ties to even) at 53 bits. -/
def rnePos (q : ℚ) : ℚ :=
  let s := ratLog2 q - 52
  let y := sc q (-s)
  let m := Int.floor y
  let r := y - m
  let m2 := if r < 1 / 2 then m else if 1 / 2 < r then m + 1
    else if m % 2 = 0 then m else m + 1
  sc (m2 : ℚ) s

def roundDn53 (q : ℚ) : ℚ :=
  if 0 < q then rdnPos q else if q < 0 then -(rupPos (-q)) else 0

def roundUp53 (q : ℚ) : ℚ :=
  if 0 < q then rupPos q else if q < 0 then -(rdnPos (-q)) else 0

def roundNe53 (q : ℚ) : ℚ :=
  if 0 < q then rnePos q else if q < 0 then -(rnePos (-q)) else 0

theorem sc_mono {a b : ℚ} (k : ℤ) (h : a ≤ b) : sc a k ≤ sc b k := by
  unfold sc
  split
  · exact mul_le_mul_of_nonneg_right h (by positivity)
  · exact (div_le_div_iff_of_pos_right (by positivity)).mpr h

theorem sc_sc_neg (q : ℚ) (k : ℤ) : sc (sc q k) (-k) = q := by
  unfold sc
  rcases lt_trichotomy k 0 with h | h | h
  · rw [if_neg (not_le.mpr h), if_pos (by omega : (0 : ℤ) ≤ -k)]
    have hp : (0 : ℚ) < 2 ^ (-k).toNat := by positivity
    field_simp
  · subst h
    simp
  · rw [if_pos h.le, if_neg (by omega : ¬(0 : ℤ) ≤ -k)]
    have hp : (0 : ℚ) < 2 ^ k.toNat := by positivity
    rw [neg_neg]
    field_simp

theorem rdnPos_le (q : ℚ) : rdnPos q ≤ q := by
  unfold rdnPos
  have h1 : ((Int.floor (sc q (-(ratLog2 q - 52)))) : ℚ) ≤ sc q (-(ratLog2 q - 52)) :=
    Int.floor_le _
  have h2 := sc_mono (ratLog2 q - 52) h1
  have h3 := sc_sc_neg q (-(ratLog2 q - 52))
  rw [neg_neg] at h3
  rw [h3] at h2
  exact h2

theorem rupPos_ge (q : ℚ) : q ≤ rupPos q := by
  unfold rupPos
  have h1 : sc q (-(ratLog2 q - 52)) ≤ ((Int.ceil (sc q (-(ratLog2 q - 52)))) : ℚ) :=
    Int.le_ceil _
  have h2 := sc_mono (ratLog2 q - 52) h1
  have h3 := sc_sc_neg q (-(ratLog2 q - 52))
  rw [neg_neg] at h3
  rw [h3] at h2
  exact h2

theorem roundDn53_le (q : ℚ) : roundDn53 q ≤ q := by
  unfold roundDn53
  rcases lt_trichotomy 0 q with h | h | h
  · rw [if_pos h]
    exact rdnPos_le q
  · subst h
    norm_num
  · rw [if_neg (not_lt.mpr h.le), if_pos h]
    have := rupPos_ge (-q)
    linarith

theorem roundUp53_ge (q : ℚ) : q ≤ roundUp53 q := by
  unfold roundUp53
  rcases lt_trichotomy 0 q with h | h | h
  · rw [if_pos h]
    exact rupPos_ge q
  · subst h
    norm_num
  · rw [if_neg (not_lt.mpr h.le), if_pos h]
    have := rdnPos_le (-q)
    linarith

/-- The binary64 FPU: directed 53-bit rounding for modes `-1` and `1`,
round-to-nearest-even otherwise. -/
def FPU53 : FPU where
  rnd := fun m q => if m = -1 then roundDn53 q else if m = 1 then roundUp53 q else roundNe53 q
  dn_le := by
    intro q
    simpa using roundDn53_le q
  le_up := by
    intro q
    simpa using roundUp53_ge q

/-! ## Intervals (`src/ireal/ireal.py`) -/

/-- A constructor argument of `IReal`: a finite number (Python `int` or
finite `float`), a float NaN, or a rational-literal string. -/
inductive Carg where
  | num (q : ℚ)
  | nanc
  | strc (s : List Char)
deriving DecidableEq

/-- Python 2 `!=` between two constructor arguments (the `inf != sup` test of
`_parse_limits`): values of different types are unequal, and NaN is unequal
to itself. -/
def cargNe : Carg → Carg → Bool
  | .num a, .num b => decide (a ≠ b)
  | .strc s, .strc t => decide (s ≠ t)
  | _, _ => true

/-- `float(x)` on a non-string argument is the identity (the `strc` case is
never consulted: `_parse_limits` always overwrites string slots). -/
def cargToF : Carg → F
  | .num q => .fin q
  | .nanc => .nan
  | .strc _ => .nan

/-- Python `float(int)`: convert an arbitrary-precision integer to binary64
in the current mode; magnitudes at or beyond 2^1024 raise `OverflowError`. -/
def floatOfInt (P : FPU) (m : ℤ) (n : ℤ) : Except Err ℚ :=
  if 2 ^ 1024 ≤ n.natAbs then .error Err.overflow else .ok (P.rnd m n)

/-- The `sup` half of `_parse_limits`: when `inf != sup`, the `sup` string is
parsed and its fraction parts converted to float under mode `0`; otherwise
the conversions saved by the `inf` half are reused.  Either way the quotient
is then computed under mode `1`. -/
def parse_limits_sup (P : FPU) (inf sup : Carg) (newInf : F)
    (saved : Option (ℚ × ℚ)) : Except Err (F × F) :=
  match sup with
  | .strc s2 =>
    let fpnd : Except Err (ℚ × ℚ) :=
      if cargNe inf sup then
        match rational2fraction (some s2) with
        | .error e => .error e
        | .ok fr =>
          match floatOfInt P 0 fr.1 with
          | .error e => .error e
          | .ok fpn =>
            match floatOfInt P 0 fr.2 with
            | .error e => .error e
            | .ok fpd => .ok (fpn, fpd)
      else
        match saved with
        | some v => .ok v
        | none => .ok (0, 0)
        -- the `none` case is unreachable: `inf == sup` with `sup` a string
        -- forces `inf` to be the same string, so the `inf` half ran
    match fpnd with
    | .error e => .error e
    | .ok v => .ok (newInf, F.fin (P.rnd 1 (v.1 / v.2)))
  | _ => .ok (newInf, cargToF sup)

/-- `_parse_limits` from `ireal.py`.  The entry mode is saved first; the body
converts string slots (fraction parts to float under mode `0`, then the
quotient under mode `-1` for the `inf` slot and `1` for the `sup` slot); the
`finally` clause restores the saved mode on every exit path, so the returned
mode is the entry mode on both the ok and the error path. -/
def parse_limits (P : FPU) (inf sup : Carg) (m : ℤ) : Except Err (F × F) × ℤ :=
  let body : Except Err (F × F) :=
    match inf with
    | .strc s =>
      match rational2fraction (some s) with
      | .error e => .error e
      | .ok fr =>
        match floatOfInt P 0 fr.1 with
        | .error e => .error e
        | .ok fpn =>
          match floatOfInt P 0 fr.2 with
          | .error e => .error e
          | .ok fpd =>
            parse_limits_sup P inf sup (F.fin (P.rnd (-1) (fpn / fpd))) (some (fpn, fpd))
    | _ => parse_limits_sup P inf sup (cargToF inf) none
  (body, m)

/-- The interval state: fields `_inf`, `_sup`, `_empty` of class `IReal`. -/
structure IReal where
  _inf : F
  _sup : F
  _empty : Bool
deriving DecidableEq

/-- Property `IReal.empty`. -/
def IReal.empty (I : IReal) : Bool := I._empty

/-- Property `IReal.undefined`: not empty and some endpoint is NaN. -/
def IReal.undefined (I : IReal) : Bool := !I._empty && (I._inf.isnan || I._sup.isnan)

/-- The reserved constructor string `"undefined"`. -/
def undefinedArg : Carg := .strc "undefined".toList

/-- `IReal.__init__` / `IReal._set_limits`: `None` gives the Empty interval,
the reserved string `"undefined"` short-circuits to the Undefined interval,
otherwise the limits are parsed (a missing `sup` defaults to `inf`), NaN
endpoints leave the initialized NaN pair in place (Undefined), and finite
limits are normalized with `min`/`max`. -/
def ireal_new (P : FPU) (inf sup : Option Carg) (m : ℤ) : Except Err IReal × ℤ :=
  match inf with
  | none => (.ok ⟨F.nan, F.nan, true⟩, m)
  | some i =>
    if i = undefinedArg then (.ok ⟨F.nan, F.nan, false⟩, m)
    else
      match parse_limits P i (sup.getD i) m with
      | (.error e, m1) => (.error e, m1)
      | (.ok lims, m1) =>
        if lims.1.isnan || lims.2.isnan then (.ok ⟨F.nan, F.nan, false⟩, m1)
        else (.ok ⟨F.pymin lims.1 lims.2, F.pymax lims.1 lims.2, false⟩, m1)

/-- A binary-operator operand: an interval, or a promotable Python value. -/
inductive Operand where
  | ival (I : IReal)
  | carg (c : Carg)

/-- `if type(other) != type(self): other = IReal(other)`. -/
def promote (P : FPU) (x : Operand) (m : ℤ) : Except Err IReal × ℤ :=
  match x with
  | .ival I => (.ok I, m)
  | .carg c => ireal_new P (some c) none m

/-- Pass a float back into the constructor. -/
def cargOfF : F → Carg
  | .fin q => .num q
  | .nan => .nanc

/-- `return IReal(inf, sup)` on two already-computed floats. -/
def wrap (P : FPU) (lo hi : F) (m : ℤ) : Except Err IReal × ℤ :=
  ireal_new P (some (cargOfF lo)) (some (cargOfF hi)) m

/-- `IReal.__pos__`. -/
def ireal_pos (self : IReal) (m : ℤ) : Except Err IReal × ℤ :=
  if self._empty then (.error Err.emptyInterval, m) else (.ok self, m)

/-- `IReal.__neg__`: `IReal(-self.sup, -self.inf)` (no rounding calls). -/
def ireal_neg (P : FPU) (self : IReal) (m : ℤ) : Except Err IReal × ℤ :=
  if self._empty then (.error Err.emptyInterval, m)
  else wrap P (F.neg self._sup) (F.neg self._inf) m

/-- `IReal.__contains__`: promote `other`, then the state dispatch of the
source (undefined → false; empty self vs non-empty other → false;
empty other → true; endpoint comparison otherwise). -/
def ireal_contains (P : FPU) (self : IReal) (other : Operand) (m : ℤ) :
    Except Err Bool × ℤ :=
  match promote P other m with
  | (.error e, m1) => (.error e, m1)
  | (.ok o, m1) =>
    if self.undefined || o.undefined then (.ok false, m1)
    else if self._empty && !o._empty then (.ok false, m1)
    else if o._empty then (.ok true, m1)
    else (.ok (F.fle self._inf o._inf && F.fle o._sup self._sup), m1)

/-- `IReal.__invert__`: reciprocal.  `0.0 in self` yields Undefined; else
`[1/sup ↓, 1/inf ↑]` with the entry mode restored afterwards. -/
def ireal_invert (P : FPU) (self : IReal) (m : ℤ) : Except Err IReal × ℤ :=
  if self._empty then (.error Err.emptyInterval, m)
  else
    match ireal_contains P self (.carg (.num 0)) m with
    | (.error e, m1) => (.error e, m1)
    | (.ok b, m1) =>
      if b then ireal_new P (some undefinedArg) none m1
      else
        wrap P (F.rnd P (-1) (F.div (F.fin 1) self._sup))
          (F.rnd P 1 (F.div (F.fin 1) self._inf)) m1

/-- `IReal.__add__`: `[inf+inf ↓, sup+sup ↑]` after promotion and the
empty check; the entry mode is restored before the final construction. -/
def ireal_add (P : FPU) (self : IReal) (other : Operand) (m : ℤ) :
    Except Err IReal × ℤ :=
  match promote P other m with
  | (.error e, m1) => (.error e, m1)
  | (.ok o, m1) =>
    if self._empty || o._empty then (.error Err.emptyInterval, m1)
    else
      wrap P (F.rnd P (-1) (F.add self._inf o._inf))
        (F.rnd P 1 (F.add self._sup o._sup)) m1

/-- `IReal.__sub__`: `[inf−sup ↓, sup−inf ↑]`. -/
def ireal_sub (P : FPU) (self : IReal) (other : Operand) (m : ℤ) :
    Except Err IReal × ℤ :=
  match promote P other m with
  | (.error e, m1) => (.error e, m1)
  | (.ok o, m1) =>
    if self._empty || o._empty then (.error Err.emptyInterval, m1)
    else
      wrap P (F.rnd P (-1) (F.sub self._inf o._sup))
        (F.rnd P 1 (F.sub self._sup o._inf)) m1

/-- `IReal.__mul__`: `min`/`max` of the four endpoint products, all computed
under mode `-1` for the lower and `1` for the upper endpoint. -/
def ireal_mul (P : FPU) (self : IReal) (other : Operand) (m : ℤ) :
    Except Err IReal × ℤ :=
  match promote P other m with
  | (.error e, m1) => (.error e, m1)
  | (.ok o, m1) =>
    if self._empty || o._empty then (.error Err.emptyInterval, m1)
    else
      let x1 := self._inf
      let y1 := self._sup
      let x2 := o._inf
      let y2 := o._sup
      let dn := fun u v => F.rnd P (-1) (F.mul u v)
      let up := fun u v => F.rnd P 1 (F.mul u v)
      wrap P
        (F.pymin (F.pymin (F.pymin (dn x1 x2) (dn x1 y2)) (dn y1 x2)) (dn y1 y2))
        (F.pymax (F.pymax (F.pymax (up x1 x2) (up x1 y2)) (up y1 x2)) (up y1 y2)) m1

/-- `IReal.__div__`: like multiplication with `/`, after the
`0.0 in other → Undefined` guard. -/
def ireal_div (P : FPU) (self : IReal) (other : Operand) (m : ℤ) :
    Except Err IReal × ℤ :=
  match promote P other m with
  | (.error e, m1) => (.error e, m1)
  | (.ok o, m1) =>
    if self._empty || o._empty then (.error Err.emptyInterval, m1)
    else
      match ireal_contains P o (.carg (.num 0)) m1 with
      | (.error e, m2) => (.error e, m2)
      | (.ok b, m2) =>
        if b then ireal_new P (some undefinedArg) none m2
        else
          let x1 := self._inf
          let y1 := self._sup
          let x2 := o._inf
          let y2 := o._sup
          let dn := fun u v => F.rnd P (-1) (F.div u v)
          let up := fun u v => F.rnd P 1 (F.div u v)
          wrap P
            (F.pymin (F.pymin (F.pymin (dn x1 x2) (dn x1 y2)) (dn y1 x2)) (dn y1 y2))
            (F.pymax (F.pymax (F.pymax (up x1 x2) (up x1 y2)) (up y1 x2)) (up y1 y2)) m2

/-- `IReal.__or__` (union): Undefined propagates, an Empty operand is
absorbed, a gap (`inf_max > sup_min`) yields Undefined, else the hull. -/
def ireal_or (P : FPU) (self other : IReal) (m : ℤ) : Except Err IReal × ℤ :=
  if self.undefined || other.undefined then ireal_new P (some undefinedArg) none m
  else if self._empty then (.ok other, m)
  else if other._empty then (.ok self, m)
  else
    let sup_min := F.pymin self._sup other._sup
    let inf_max := F.pymax self._inf other._inf
    if F.flt sup_min inf_max then ireal_new P (some undefinedArg) none m
    else wrap P (F.pymin self._inf other._inf) (F.pymax self._sup other._sup) m

/-- `IReal.hull` (convex union): like `__or__` without the gap check. -/
def ireal_hull (P : FPU) (self other : IReal) (m : ℤ) : Except Err IReal × ℤ :=
  if self.undefined || other.undefined then ireal_new P (some undefinedArg) none m
  else if self._empty then (.ok other, m)
  else if other._empty then (.ok self, m)
  else wrap P (F.pymin self._inf other._inf) (F.pymax self._sup other._sup) m

/-- `IReal.__eq__`: both Empty, or componentwise float equality (so NaN
endpoints never compare equal). -/
def ireal_eq (self other : IReal) : Bool :=
  (self._empty && other._empty) ||
    (F.feq self._inf other._inf && F.feq self._sup other._sup)

/-- `IReal.__ne__`. -/
def ireal_ne (self other : IReal) : Bool := !ireal_eq self other

/-- `IReal.diameter`: `sup − inf` computed under mode `1`. -/
def ireal_diameter (P : FPU) (self : IReal) (m : ℤ) : Except Err F × ℤ :=
  if self._empty then (.error Err.emptyInterval, m)
  else if self.undefined then (.error Err.undefinedInterval, m)
  else (.ok (F.rnd P 1 (F.sub self._sup self._inf)), m)

/-- `IReal.middle`: `(inf + sup) / 2.0`, both operations under mode `1`. -/
def ireal_middle (P : FPU) (self : IReal) (m : ℤ) : Except Err F × ℤ :=
  if self._empty then (.error Err.emptyInterval, m)
  else if self.undefined then (.error Err.undefinedInterval, m)
  else (.ok (F.rnd P 1 (F.div (F.rnd P 1 (F.add self._inf self._sup)) (F.fin 2))), m)

/-- `IReal.distance` (Hausdorff): `max(|inf−inf|, |sup−sup|)`, the two
subtractions under mode `1`. -/
def ireal_distance (P : FPU) (self other : IReal) (m : ℤ) : Except Err F × ℤ :=
  if self._empty || other._empty then (.error Err.emptyInterval, m)
  else if self.undefined || other.undefined then (.error Err.undefinedInterval, m)
  else
    (.ok (F.pymax (F.fabs (F.rnd P 1 (F.sub self._inf other._inf)))
      (F.fabs (F.rnd P 1 (F.sub self._sup other._sup)))), m)

/-- `IReal()`: the Empty interval. -/
def emptyI : IReal := ⟨F.nan, F.nan, true⟩

/-- `IReal("undefined")`: the Undefined interval. -/
def undefI : IReal := ⟨F.nan, F.nan, false⟩

/-- `Interval.of(a, b)` at entry mode `0`. -/
def interval_of2 (P : FPU) (a b : Carg) : Except Err IReal :=
  (ireal_new P (some a) (some b) 0).1

/-- Whether `Interval.of(a, b) == Interval.of(b, a)` (false when either
construction fails). -/
def ofComm (P : FPU) (a b : Carg) : Bool :=
  match interval_of2 P a b, interval_of2 P b a with
  | .ok i, .ok j => ireal_eq i j
  | _, _ => false

/-- Reachable interval states: the constructor only ever produces endpoint
pairs that are both NaN or both finite, the latter only with `_empty = false`. -/
def WF (I : IReal) : Prop :=
  (I._inf = F.nan ∧ I._sup = F.nan) ∨
    (I._empty = false ∧ I._inf.isnan = false ∧ I._sup.isnan = false)

/-- The real point `v` lies between the endpoints whenever the result is a
Proper interval (vacuous on error, Empty and Undefined results). -/
def containsVal (r : Except Err IReal × ℤ) (v : ℝ) : Prop :=
  ∀ a b : ℚ, r.1 = .ok ⟨F.fin a, F.fin b, false⟩ → (a : ℝ) ≤ v ∧ v ≤ (b : ℝ)

/-- The error-dispatch contract of a binary arithmetic result `r` on operands
`X, Y` at entry mode `m`: an Empty operand fails with `EmptyIntervalError`,
and otherwise an Undefined operand makes the result the Undefined interval
without raising. -/
def C4Op (r : Except Err IReal × ℤ) (X Y : IReal) (m : ℤ) : Prop :=
  ((X._empty || Y._empty) = true → r = (.error Err.emptyInterval, m)) ∧
  (X._empty = false → Y._empty = false → (X.undefined || Y.undefined) = true →
    r = (.ok undefI, m))

/-! ## Properties of `_mdc` and `rational2fraction` -/

/-- Along Euclid's recursion, `_mdc` divides both arguments, is a multiple of
every common divisor, and carries the sign of its second argument. -/
theorem mdc_spec : ∀ (k : ℕ) (a b : ℤ), b.natAbs ≤ k → b ≠ 0 →
    (mdc a b ∣ a ∧ mdc a b ∣ b) ∧ (∀ c : ℤ, c ∣ a → c ∣ b → c ∣ mdc a b) ∧
    (0 < b → 0 < mdc a b) ∧ (b < 0 → mdc a b < 0) := by
  intro k
  induction k with
  | zero =>
    intro a b hle hb
    exact absurd (Int.natAbs_eq_zero.mp (Nat.le_zero.mp hle)) hb
  | succ n ih =>
    intro a b hle hb
    rw [mdc, dif_neg hb]
    by_cases hr : Int.fmod a b = 0
    · rw [if_pos hr]
      have heq := Int.fmod_add_fdiv a b
      rw [hr, zero_add] at heq
      exact ⟨⟨⟨a.fdiv b, heq.symm⟩, dvd_rfl⟩, fun c _ hcb => hcb, fun h => h, fun h => h⟩
    · rw [if_neg hr]
      have hbnd : (Int.fmod a b).natAbs < b.natAbs := by
        rcases lt_or_gt_of_ne hb with hneg | hpos
        · have h1 := (fmod_bounds_of_neg a hneg).1
          have h2 := (fmod_bounds_of_neg a hneg).2
          omega
        · have h1 := Int.fmod_nonneg' a hpos
          have h2 := Int.fmod_lt_of_pos a hpos
          omega
      obtain ⟨⟨hd1, hd2⟩, hcomm, hs1, hs2⟩ := ih b (Int.fmod a b) (by omega) hr
      refine ⟨⟨?_, hd1⟩, ?_, ?_, ?_⟩
      · have heq := Int.fmod_add_fdiv a b
        have hsum : mdc b (a.fmod b) ∣ a.fmod b + b * a.fdiv b :=
          dvd_add hd2 (hd1.mul_right _)
        rwa [heq] at hsum
      · intro c hca hcb
        apply hcomm c hcb
        rw [Int.fmod_def]
        exact dvd_sub hca (hcb.mul_right _)
      · intro hpos
        have h1 := Int.fmod_nonneg' a hpos
        exact hs1 (lt_of_le_of_ne h1 (Ne.symm hr))
      · intro hneg
        have h2 := (fmod_bounds_of_neg a hneg).2
        exact hs2 (lt_of_le_of_ne h2 hr)

/-- `_mdc` is `±gcd`. -/
theorem mdc_natAbs (a b : ℤ) (hb : b ≠ 0) : (mdc a b).natAbs = Int.gcd a b := by
  obtain ⟨⟨hd1, hd2⟩, hcomm, -, -⟩ := mdc_spec b.natAbs a b le_rfl hb
  apply Nat.dvd_antisymm
  · exact Nat.dvd_gcd (Int.natAbs_dvd_natAbs.mpr hd1) (Int.natAbs_dvd_natAbs.mpr hd2)
  · have h := hcomm _ Int.gcd_dvd_left Int.gcd_dvd_right
    have h2 := Int.natAbs_dvd_natAbs.mpr h
    simpa using h2

/-- Reducing a pair with a nonzero second component by `_mdc` yields a
positive second component and a coprime pair. -/
theorem reduce_pair (a b : ℤ) (hb : b ≠ 0) :
    0 < Int.fdiv b (mdc a b) ∧ Int.gcd (Int.fdiv a (mdc a b)) (Int.fdiv b (mdc a b)) = 1 := by
  obtain ⟨⟨hd1, hd2⟩, -, hs1, hs2⟩ := mdc_spec b.natAbs a b le_rfl hb
  have habs := mdc_natAbs a b hb
  set g := mdc a b with hgdef
  have hg0 : g ≠ 0 := by
    intro h0
    rw [h0] at hd2
    exact hb (zero_dvd_iff.mp hd2)
  obtain ⟨a2, ha2⟩ := hd1
  obtain ⟨k, hk⟩ := hd2
  have hfa : Int.fdiv a g = a2 := by
    rw [ha2]
    exact Int.mul_fdiv_cancel_left _ hg0
  have hfb : Int.fdiv b g = k := by
    rw [hk]
    exact Int.mul_fdiv_cancel_left _ hg0
  have hkpos : 0 < k := by
    rcases lt_or_gt_of_ne hb with hneg | hpos
    · have hgneg := hs2 hneg
      rcases mul_neg_iff.mp (hk ▸ hneg) with ⟨h1, -⟩ | ⟨-, h2⟩
      · exact absurd h1 (not_lt.mpr hgneg.le)
      · exact h2
    · have hgpos := hs1 hpos
      rcases mul_pos_iff.mp (hk ▸ hpos) with ⟨-, h2⟩ | ⟨h1, -⟩
      · exact h2
      · exact absurd hgpos (not_lt.mpr h1.le)
  refine ⟨hfb ▸ hkpos, ?_⟩
  rw [hfa, hfb]
  have hgcd : Int.gcd a b = g.natAbs * Int.gcd a2 k := by
    rw [ha2, hk]
    exact Int.gcd_mul_left _ _ _
  rw [habs] at hgcd
  have hne : Int.gcd a b ≠ 0 := by
    intro h0
    exact hb (Int.gcd_eq_zero_iff.mp h0).2
  nth_rewrite 1 [show Int.gcd a b = Int.gcd a b * 1 from (mul_one _).symm] at hgcd
  exact Nat.eq_of_mul_eq_mul_left (Nat.pos_of_ne_zero hne) hgcd.symm

/-- The second component fed into the reduction step is never zero. -/
theorem combine_spec (parts : NumParts) (den : ℤ × ℤ) (hd : den.1 ≠ 0) :
    0 < (combine parts den).2 ∧ Int.gcd (combine parts den).1 (combine parts den).2 = 1 := by
  rw [combine]
  set e : ℤ := (if parts.expNeg then -1 else 1) * (digitsToNat parts.expDigits : ℤ) -
    parts.afterPt.length with he
  by_cases hlt : e < 0
  · simp only [if_pos hlt]
    have h10 : (10 : ℤ) ^ (-e).toNat * den.1 ≠ 0 := mul_ne_zero (by positivity) hd
    exact reduce_pair _ _ h10
  · simp only [if_neg hlt]
    exact reduce_pair _ _ hd

/-! ## Evaluation lemmas for the interval layer -/

theorem pymin_fin (a b : ℚ) : F.pymin (F.fin a) (F.fin b) = F.fin (min a b) := by
  unfold F.pymin F.flt
  split
  · rename_i h
    simp only [decide_eq_true_eq] at h
    rw [min_eq_right h.le]
  · rename_i h
    simp only [decide_eq_true_eq] at h
    rw [min_eq_left (not_lt.mp h)]

theorem pymax_fin (a b : ℚ) : F.pymax (F.fin a) (F.fin b) = F.fin (max a b) := by
  unfold F.pymax F.flt
  split
  · rename_i h
    simp only [decide_eq_true_eq] at h
    rw [max_eq_right h.le]
  · rename_i h
    simp only [decide_eq_true_eq] at h
    rw [max_eq_left (not_lt.mp h)]

theorem new_num (P : FPU) (a b : ℚ) (m : ℤ) :
    ireal_new P (some (.num a)) (some (.num b)) m =
      (.ok ⟨F.fin (min a b), F.fin (max a b), false⟩, m) := by
  simp [ireal_new, undefinedArg, parse_limits, parse_limits_sup, cargToF, F.isnan,
    pymin_fin, pymax_fin]

theorem new_num_one (P : FPU) (a : ℚ) (m : ℤ) :
    ireal_new P (some (.num a)) none m = (.ok ⟨F.fin a, F.fin a, false⟩, m) := by
  simp [ireal_new, undefinedArg, parse_limits, parse_limits_sup, cargToF, F.isnan,
    pymin_fin, pymax_fin]

theorem new_undefined (P : FPU) (y : Option Carg) (m : ℤ) :
    ireal_new P (some undefinedArg) y m = (.ok undefI, m) := by
  simp [ireal_new, undefI]

theorem new_none (P : FPU) (m : ℤ) :
    ireal_new P none none m = (.ok emptyI, m) := rfl

theorem wrap_fin (P : FPU) (a b : ℚ) (m : ℤ) :
    wrap P (F.fin a) (F.fin b) m = (.ok ⟨F.fin (min a b), F.fin (max a b), false⟩, m) := by
  simp [wrap, cargOfF, new_num]

theorem wrap_nan_left (P : FPU) (y : F) (m : ℤ) :
    wrap P F.nan y m = (.ok undefI, m) := by
  cases y <;>
    simp [wrap, cargOfF, ireal_new, undefinedArg, parse_limits, parse_limits_sup,
      cargToF, F.isnan, undefI]

theorem wrap_nan_right (P : FPU) (x : F) (m : ℤ) :
    wrap P x F.nan m = (.ok undefI, m) := by
  cases x <;>
    simp [wrap, cargOfF, ireal_new, undefinedArg, parse_limits, parse_limits_sup,
      cargToF, F.isnan, undefI]

/-! ## Mode preservation of the individual layers -/

theorem parse_limits_mode (P : FPU) (i s : Carg) (m : ℤ) :
    (parse_limits P i s m).2 = m := rfl

theorem new_mode (P : FPU) (a b : Option Carg) (m : ℤ) : (ireal_new P a b m).2 = m := by
  cases a with
  | none => rfl
  | some i =>
    rw [ireal_new]
    split
    · rfl
    · split
      · rename_i e m1 h
        have h2 := congrArg Prod.snd h
        rw [parse_limits_mode] at h2
        exact h2.symm
      · rename_i lims m1 h
        have h2 := congrArg Prod.snd h
        rw [parse_limits_mode] at h2
        split <;> exact h2.symm

theorem promote_mode (P : FPU) (x : Operand) (m : ℤ) : (promote P x m).2 = m := by
  cases x with
  | ival I => rfl
  | carg c => exact new_mode P (some c) none m

theorem wrap_mode (P : FPU) (lo hi : F) (m : ℤ) : (wrap P lo hi m).2 = m :=
  new_mode P _ _ m

theorem contains_mode (P : FPU) (self : IReal) (other : Operand) (m : ℤ) :
    (ireal_contains P self other m).2 = m := by
  rw [ireal_contains]
  split
  · rename_i e m1 h
    have h2 := congrArg Prod.snd h
    rw [promote_mode] at h2
    exact h2.symm
  · rename_i o m1 h
    have h2 := congrArg Prod.snd h
    rw [promote_mode] at h2
    split
    · exact h2.symm
    · split
      · exact h2.symm
      · split <;> exact h2.symm

theorem pos_mode (self : IReal) (m : ℤ) : (ireal_pos self m).2 = m := by
  rw [ireal_pos]
  split <;> rfl

theorem neg_mode (P : FPU) (self : IReal) (m : ℤ) : (ireal_neg P self m).2 = m := by
  rw [ireal_neg]
  split
  · rfl
  · exact wrap_mode P _ _ m

theorem invert_mode (P : FPU) (self : IReal) (m : ℤ) : (ireal_invert P self m).2 = m := by
  rw [ireal_invert]
  split
  · rfl
  · split
    · rename_i e m1 h
      have h2 := congrArg Prod.snd h
      rw [contains_mode] at h2
      exact h2.symm
    · rename_i b m1 h
      have h2 := congrArg Prod.snd h
      rw [contains_mode] at h2
      split
      · rw [new_mode]
        exact h2.symm
      · rw [wrap_mode]
        exact h2.symm

theorem add_mode (P : FPU) (self : IReal) (other : Operand) (m : ℤ) :
    (ireal_add P self other m).2 = m := by
  rw [ireal_add]
  split
  · rename_i e m1 h
    have h2 := congrArg Prod.snd h
    rw [promote_mode] at h2
    exact h2.symm
  · rename_i o m1 h
    have h2 := congrArg Prod.snd h
    rw [promote_mode] at h2
    split
    · exact h2.symm
    · rw [wrap_mode]
      exact h2.symm

theorem sub_mode (P : FPU) (self : IReal) (other : Operand) (m : ℤ) :
    (ireal_sub P self other m).2 = m := by
  rw [ireal_sub]
  split
  · rename_i e m1 h
    have h2 := congrArg Prod.snd h
    rw [promote_mode] at h2
    exact h2.symm
  · rename_i o m1 h
    have h2 := congrArg Prod.snd h
    rw [promote_mode] at h2
    split
    · exact h2.symm
    · rw [wrap_mode]
      exact h2.symm

theorem mul_mode (P : FPU) (self : IReal) (other : Operand) (m : ℤ) :
    (ireal_mul P self other m).2 = m := by
  rw [ireal_mul]
  split
  · rename_i e m1 h
    have h2 := congrArg Prod.snd h
    rw [promote_mode] at h2
    exact h2.symm
  · rename_i o m1 h
    have h2 := congrArg Prod.snd h
    rw [promote_mode] at h2
    split
    · exact h2.symm
    · rw [wrap_mode]
      exact h2.symm

theorem div_mode (P : FPU) (self : IReal) (other : Operand) (m : ℤ) :
    (ireal_div P self other m).2 = m := by
  rw [ireal_div]
  split
  · rename_i e m1 h
    have h2 := congrArg Prod.snd h
    rw [promote_mode] at h2
    exact h2.symm
  · rename_i o m1 h
    have h2 := congrArg Prod.snd h
    rw [promote_mode] at h2
    split
    · exact h2.symm
    · split
      · rename_i e m2 h3
        have h4 := congrArg Prod.snd h3
        rw [contains_mode] at h4
        simp at h2 h4 ⊢
        omega
      · rename_i b m2 h3
        have h4 := congrArg Prod.snd h3
        rw [contains_mode] at h4
        simp at h2 h4
        split
        · rw [new_mode]
          omega
        · rw [wrap_mode]
          omega

theorem diameter_mode (P : FPU) (self : IReal) (m : ℤ) :
    (ireal_diameter P self m).2 = m := by
  rw [ireal_diameter]
  split
  · rfl
  · split <;> rfl

theorem middle_mode (P : FPU) (self : IReal) (m : ℤ) :
    (ireal_middle P self m).2 = m := by
  rw [ireal_middle]
  split
  · rfl
  · split <;> rfl

theorem distance_mode (P : FPU) (self other : IReal) (m : ℤ) :
    (ireal_distance P self other m).2 = m := by
  rw [ireal_distance]
  split
  · rfl
  · split <;> rfl

/-! ## Symbolic evaluation of operations on Proper operands -/

theorem undefined_finfin (a b : ℚ) (e : Bool) :
    IReal.undefined ⟨F.fin a, F.fin b, e⟩ = false := by
  simp [IReal.undefined, F.isnan]

theorem promote_ival (P : FPU) (I : IReal) (m : ℤ) :
    promote P (.ival I) m = (.ok I, m) := rfl

theorem add_eval (P : FPU) (x1 y1 x2 y2 : ℚ) (m : ℤ) :
    ireal_add P ⟨F.fin x1, F.fin y1, false⟩ (.ival ⟨F.fin x2, F.fin y2, false⟩) m =
      (.ok ⟨F.fin (min (P.rnd (-1) (x1 + x2)) (P.rnd 1 (y1 + y2))),
            F.fin (max (P.rnd (-1) (x1 + x2)) (P.rnd 1 (y1 + y2))), false⟩, m) := by
  simp [ireal_add, promote, F.rnd, F.add, wrap_fin]

theorem sub_eval (P : FPU) (x1 y1 x2 y2 : ℚ) (m : ℤ) :
    ireal_sub P ⟨F.fin x1, F.fin y1, false⟩ (.ival ⟨F.fin x2, F.fin y2, false⟩) m =
      (.ok ⟨F.fin (min (P.rnd (-1) (x1 - y2)) (P.rnd 1 (y1 - x2))),
            F.fin (max (P.rnd (-1) (x1 - y2)) (P.rnd 1 (y1 - x2))), false⟩, m) := by
  simp [ireal_sub, promote, F.rnd, F.sub, wrap_fin]

theorem mul_eval (P : FPU) (x1 y1 x2 y2 : ℚ) (m : ℤ) :
    ireal_mul P ⟨F.fin x1, F.fin y1, false⟩ (.ival ⟨F.fin x2, F.fin y2, false⟩) m =
      (.ok ⟨F.fin (min
              (min (min (min (P.rnd (-1) (x1 * x2)) (P.rnd (-1) (x1 * y2)))
                (P.rnd (-1) (y1 * x2))) (P.rnd (-1) (y1 * y2)))
              (max (max (max (P.rnd 1 (x1 * x2)) (P.rnd 1 (x1 * y2)))
                (P.rnd 1 (y1 * x2))) (P.rnd 1 (y1 * y2)))),
            F.fin (max
              (min (min (min (P.rnd (-1) (x1 * x2)) (P.rnd (-1) (x1 * y2)))
                (P.rnd (-1) (y1 * x2))) (P.rnd (-1) (y1 * y2)))
              (max (max (max (P.rnd 1 (x1 * x2)) (P.rnd 1 (x1 * y2)))
                (P.rnd 1 (y1 * x2))) (P.rnd 1 (y1 * y2)))), false⟩, m) := by
  simp [ireal_mul, promote, F.rnd, F.mul, pymin_fin, pymax_fin, wrap_fin]

theorem contains_zero_eval (P : FPU) (x2 y2 : ℚ) (m : ℤ) :
    ireal_contains P ⟨F.fin x2, F.fin y2, false⟩ (.carg (.num 0)) m =
      (.ok (decide (x2 ≤ 0) && decide (0 ≤ y2)), m) := by
  simp [ireal_contains, promote, new_num_one, IReal.undefined, F.isnan, F.fle]

theorem invert_eval_undef (P : FPU) (x1 y1 : ℚ) (m : ℤ)
    (h1 : x1 ≤ 0) (h2 : 0 ≤ y1) :
    ireal_invert P ⟨F.fin x1, F.fin y1, false⟩ m = (.ok undefI, m) := by
  simp [ireal_invert, contains_zero_eval, h1, h2, new_undefined]

theorem invert_eval_ok (P : FPU) (x1 y1 : ℚ) (m : ℤ) (h : ¬(x1 ≤ 0 ∧ 0 ≤ y1)) :
    ireal_invert P ⟨F.fin x1, F.fin y1, false⟩ m =
      (.ok ⟨F.fin (min (P.rnd (-1) (1 / y1)) (P.rnd 1 (1 / x1))),
            F.fin (max (P.rnd (-1) (1 / y1)) (P.rnd 1 (1 / x1))), false⟩, m) := by
  have hb : (decide (x1 ≤ 0) && decide (0 ≤ y1)) = false := by
    rcases not_and_or.mp h with h1 | h1 <;> simp [h1]
  simp [ireal_invert, contains_zero_eval, hb, F.div, F.rnd, wrap_fin]

theorem div_eval_undef (P : FPU) (x1 y1 x2 y2 : ℚ) (m : ℤ)
    (h1 : x2 ≤ 0) (h2 : 0 ≤ y2) :
    ireal_div P ⟨F.fin x1, F.fin y1, false⟩ (.ival ⟨F.fin x2, F.fin y2, false⟩) m =
      (.ok undefI, m) := by
  simp [ireal_div, promote, contains_zero_eval, h1, h2, new_undefined]

theorem div_eval_ok (P : FPU) (x1 y1 x2 y2 : ℚ) (m : ℤ) (h : ¬(x2 ≤ 0 ∧ 0 ≤ y2)) :
    ireal_div P ⟨F.fin x1, F.fin y1, false⟩ (.ival ⟨F.fin x2, F.fin y2, false⟩) m =
      (.ok ⟨F.fin (min
              (min (min (min (P.rnd (-1) (x1 / x2)) (P.rnd (-1) (x1 / y2)))
                (P.rnd (-1) (y1 / x2))) (P.rnd (-1) (y1 / y2)))
              (max (max (max (P.rnd 1 (x1 / x2)) (P.rnd 1 (x1 / y2)))
                (P.rnd 1 (y1 / x2))) (P.rnd 1 (y1 / y2)))),
            F.fin (max
              (min (min (min (P.rnd (-1) (x1 / x2)) (P.rnd (-1) (x1 / y2)))
                (P.rnd (-1) (y1 / x2))) (P.rnd (-1) (y1 / y2)))
              (max (max (max (P.rnd 1 (x1 / x2)) (P.rnd 1 (x1 / y2)))
                (P.rnd 1 (y1 / x2))) (P.rnd 1 (y1 / y2)))), false⟩, m) := by
  have hb : (decide (x2 ≤ 0) && decide (0 ≤ y2)) = false := by
    rcases not_and_or.mp h with h1 | h1 <;> simp [h1]
  simp [ireal_div, promote, contains_zero_eval, hb, F.div, F.rnd, pymin_fin, pymax_fin,
    wrap_fin]

theorem or_eval_gap (P : FPU) (x1 y1 x2 y2 : ℚ) (m : ℤ)
    (h : min y1 y2 < max x1 x2) :
    ireal_or P ⟨F.fin x1, F.fin y1, false⟩ ⟨F.fin x2, F.fin y2, false⟩ m =
      (.ok undefI, m) := by
  simp [ireal_or, undefined_finfin, pymin_fin, pymax_fin, F.flt, h, new_undefined]

theorem or_eval_join (P : FPU) (x1 y1 x2 y2 : ℚ) (m : ℤ)
    (h : ¬min y1 y2 < max x1 x2) :
    ireal_or P ⟨F.fin x1, F.fin y1, false⟩ ⟨F.fin x2, F.fin y2, false⟩ m =
      (.ok ⟨F.fin (min x1 x2), F.fin (max y1 y2), false⟩, m) := by
  have hcol : min (min x1 x2) (max y1 y2) = min x1 x2 := by
    apply min_eq_left
    calc min x1 x2 ≤ x1 := min_le_left _ _
      _ ≤ max x1 x2 := le_max_left _ _
      _ ≤ min y1 y2 := not_lt.mp h
      _ ≤ y1 := min_le_left _ _
      _ ≤ max y1 y2 := le_max_left _ _
  have hcol2 : max (min x1 x2) (max y1 y2) = max y1 y2 := by
    apply max_eq_right
    calc min x1 x2 ≤ x1 := min_le_left _ _
      _ ≤ max x1 x2 := le_max_left _ _
      _ ≤ min y1 y2 := not_lt.mp h
      _ ≤ y1 := min_le_left _ _
      _ ≤ max y1 y2 := le_max_left _ _
  simp [ireal_or, undefined_finfin, pymin_fin, pymax_fin, F.flt, h, wrap_fin, hcol, hcol2]

theorem hull_eval (P : FPU) (x1 y1 x2 y2 : ℚ) (m : ℤ) (hx : x1 ≤ y1) :
    ireal_hull P ⟨F.fin x1, F.fin y1, false⟩ ⟨F.fin x2, F.fin y2, false⟩ m =
      (.ok ⟨F.fin (min x1 x2), F.fin (max y1 y2), false⟩, m) := by
  have hle : min x1 x2 ≤ max y1 y2 := by
    calc min x1 x2 ≤ x1 := min_le_left _ _
      _ ≤ y1 := hx
      _ ≤ max y1 y2 := le_max_left _ _
  simp [ireal_hull, undefined_finfin, pymin_fin, pymax_fin, wrap_fin,
    min_eq_left hle, max_eq_right hle]

/-! ## Corner lemmas: real products and quotients over a box -/

theorem mul_corner_lo (X1 Y1 X2 Y2 x y : ℝ) (h1 : X1 ≤ x) (h2 : x ≤ Y1)
    (h3 : X2 ≤ y) (h4 : y ≤ Y2) :
    min (min (min (X1 * X2) (X1 * Y2)) (Y1 * X2)) (Y1 * Y2) ≤ x * y := by
  rcases le_total 0 y with hy | hy
  · rcases le_total 0 X1 with hX | hX
    · calc min (min (min (X1 * X2) (X1 * Y2)) (Y1 * X2)) (Y1 * Y2) ≤ X1 * X2 :=
          le_trans (min_le_left _ _) (le_trans (min_le_left _ _) (min_le_left _ _))
        _ ≤ x * y := by nlinarith
    · calc min (min (min (X1 * X2) (X1 * Y2)) (Y1 * X2)) (Y1 * Y2) ≤ X1 * Y2 :=
          le_trans (min_le_left _ _) (le_trans (min_le_left _ _) (min_le_right _ _))
        _ ≤ x * y := by nlinarith
  · rcases le_total 0 Y1 with hY | hY
    · calc min (min (min (X1 * X2) (X1 * Y2)) (Y1 * X2)) (Y1 * Y2) ≤ Y1 * X2 :=
          le_trans (min_le_left _ _) (min_le_right _ _)
        _ ≤ x * y := by nlinarith
    · calc min (min (min (X1 * X2) (X1 * Y2)) (Y1 * X2)) (Y1 * Y2) ≤ Y1 * Y2 :=
          min_le_right _ _
        _ ≤ x * y := by nlinarith

theorem mul_corner_hi (X1 Y1 X2 Y2 x y : ℝ) (h1 : X1 ≤ x) (h2 : x ≤ Y1)
    (h3 : X2 ≤ y) (h4 : y ≤ Y2) :
    x * y ≤ max (max (max (X1 * X2) (X1 * Y2)) (Y1 * X2)) (Y1 * Y2) := by
  rcases le_total 0 y with hy | hy
  · rcases le_total 0 Y1 with hY | hY
    · calc x * y ≤ Y1 * Y2 := by nlinarith
        _ ≤ max (max (max (X1 * X2) (X1 * Y2)) (Y1 * X2)) (Y1 * Y2) := le_max_right _ _
    · calc x * y ≤ Y1 * X2 := by nlinarith
        _ ≤ max (max (max (X1 * X2) (X1 * Y2)) (Y1 * X2)) (Y1 * Y2) :=
          le_trans (le_max_right _ _) (le_max_left _ _)
  · rcases le_total 0 X1 with hX | hX
    · calc x * y ≤ X1 * Y2 := by nlinarith
        _ ≤ max (max (max (X1 * X2) (X1 * Y2)) (Y1 * X2)) (Y1 * Y2) :=
          le_trans (le_trans (le_max_right _ _) (le_max_left _ _)) (le_max_left _ _)
    · calc x * y ≤ X1 * X2 := by nlinarith
        _ ≤ max (max (max (X1 * X2) (X1 * Y2)) (Y1 * X2)) (Y1 * Y2) :=
          le_trans (le_trans (le_max_left _ _) (le_max_left _ _)) (le_max_left _ _)

theorem inv_bounds (X2 Y2 y : ℝ) (h3 : X2 ≤ y) (h4 : y ≤ Y2) (hz : 0 < X2 ∨ Y2 < 0) :
    Y2⁻¹ ≤ y⁻¹ ∧ y⁻¹ ≤ X2⁻¹ := by
  rcases hz with hp | hn
  · have hy : 0 < y := lt_of_lt_of_le hp h3
    exact ⟨inv_le_inv_of_le hy h4, inv_le_inv_of_le hp h3⟩
  · have hy : y < 0 := lt_of_le_of_lt h4 hn
    have hX : X2 < 0 := lt_of_le_of_lt h3 hy
    constructor
    · have := inv_le_inv_of_le (neg_pos.mpr hn) (neg_le_neg h4)
      rw [inv_neg, inv_neg] at this
      linarith
    · have := inv_le_inv_of_le (neg_pos.mpr hy) (neg_le_neg h3)
      rw [inv_neg, inv_neg] at this
      linarith

theorem min4_swap (a b c d : ℝ) :
    min (min (min a b) c) d = min (min (min b a) d) c := by
  rw [min_comm a b, min_right_comm (min b a) c d]

theorem max4_swap (a b c d : ℝ) :
    max (max (max a b) c) d = max (max (max b a) d) c := by
  rw [max_comm a b, max_assoc, max_comm c d, ← max_assoc]

theorem div_corner_lo (X1 Y1 X2 Y2 x y : ℝ) (h1 : X1 ≤ x) (h2 : x ≤ Y1)
    (h3 : X2 ≤ y) (h4 : y ≤ Y2) (hz : 0 < X2 ∨ Y2 < 0) :
    min (min (min (X1 / X2) (X1 / Y2)) (Y1 / X2)) (Y1 / Y2) ≤ x / y := by
  obtain ⟨hu1, hu2⟩ := inv_bounds X2 Y2 y h3 h4 hz
  have hmain := mul_corner_lo X1 Y1 (Y2⁻¹) (X2⁻¹) x (y⁻¹) h1 h2 hu1 hu2
  rw [div_eq_mul_inv, div_eq_mul_inv, div_eq_mul_inv, div_eq_mul_inv, div_eq_mul_inv]
  rw [min4_swap]
  exact hmain

theorem div_corner_hi (X1 Y1 X2 Y2 x y : ℝ) (h1 : X1 ≤ x) (h2 : x ≤ Y1)
    (h3 : X2 ≤ y) (h4 : y ≤ Y2) (hz : 0 < X2 ∨ Y2 < 0) :
    x / y ≤ max (max (max (X1 / X2) (X1 / Y2)) (Y1 / X2)) (Y1 / Y2) := by
  obtain ⟨hu1, hu2⟩ := inv_bounds X2 Y2 y h3 h4 hz
  have hmain := mul_corner_hi X1 Y1 (Y2⁻¹) (X2⁻¹) x (y⁻¹) h1 h2 hu1 hu2
  rw [div_eq_mul_inv, div_eq_mul_inv, div_eq_mul_inv, div_eq_mul_inv, div_eq_mul_inv]
  rw [max4_swap]
  exact hmain

/-! ## NaN propagation and interval state shapes -/

theorem pymin_nan_left (z : F) : F.pymin F.nan z = F.nan := by
  cases z <;> simp [F.pymin, F.flt]

theorem pymax_nan_left (z : F) : F.pymax F.nan z = F.nan := by
  cases z <;> simp [F.pymax, F.flt]

/-- A well-formed undefined interval is exactly the NaN pair with
`_empty = false`. -/
theorem wf_undefined_nan (X : IReal) (hX : WF X) (hu : X.undefined = true) :
    X = ⟨F.nan, F.nan, false⟩ := by
  have he : X._empty = false := by
    rw [IReal.undefined, Bool.and_eq_true, Bool.not_eq_true'] at hu
    exact hu.1
  obtain ⟨h1, h2⟩ | ⟨-, h2, h3⟩ := hX
  · cases X
    simp_all
  · rw [IReal.undefined, h2, h3] at hu
    simp at hu

/-- A well-formed non-empty non-undefined interval has finite endpoints. -/
theorem wf_proper_fin (X : IReal) (hX : WF X) (he : X._empty = false)
    (hu : X.undefined = false) : ∃ a b : ℚ, X = ⟨F.fin a, F.fin b, false⟩ := by
  obtain ⟨h1, h2⟩ | ⟨-, h2, h3⟩ := hX
  · rw [IReal.undefined, h1, h2, he] at hu
    simp [F.isnan] at hu
  · cases X with
    | mk i s e =>
      cases i with
      | nan => simp [F.isnan] at h2
      | fin a =>
        cases s with
        | nan => simp [F.isnan] at h3
        | fin b =>
          simp only at he
          exact ⟨a, b, by rw [he]⟩

/-- Reciprocal is antitone on a rational interval avoiding `0`. -/
theorem one_div_anti (x1 y1 : ℚ) (hx : x1 ≤ y1) (h : ¬(x1 ≤ 0 ∧ 0 ≤ y1)) :
    1 / y1 ≤ 1 / x1 := by
  rcases not_and_or.mp h with h1 | h1
  · exact one_div_le_one_div_of_le (not_le.mp h1) hx
  · have hn : y1 < 0 := not_le.mp h1
    have := one_div_le_one_div_of_le (neg_pos.mpr hn) (neg_le_neg hx)
    rw [div_neg, div_neg] at this
    linarith

/-! ## Claims -/

/-- C7: for every input string on which `rational2fraction` returns normally,
the returned pair `(num, den)` is a reduced fraction: `den > 0` and
`gcd(|num|, den) = 1`, including for negative or nested `/denominator`
sub-expressions and a zero numerator. -/
theorem rational2fraction_reduced (s : List Char) (n d : ℤ)
    (h : rational2fraction (some s) = .ok (n, d)) :
    0 < d ∧ Int.gcd n d = 1 := by
  rw [rational2fraction] at h
  split at h
  rename_i numPart denPart hsp
  split at h
  · exact absurd h (by simp)
  · rename_i parts hmn
    split at h
    · exact absurd h (by simp)
    · split at h
      · exact absurd h (by simp)
      · rename_i den hrec
        split at h
        · exact absurd h (by simp)
        · rename_i hden
          have hc := combine_spec parts den hden
          simp only [Except.ok.injEq] at h
          rw [h] at hc
          simpa using hc

set_option maxRecDepth 4000 in
/-- C7 witness: on the claim's example input (`"0,5"` over `"-2"`) the parser
returns `(-1, 4)`, which the theorem certifies is reduced with positive
denominator. -/
theorem rational2fraction_reduced_witness :
    rational2fraction (some "0,5/-2".toList) = .ok (-1, 4) ∧
      0 < (4 : ℤ) ∧ Int.gcd (-1) 4 = 1 := by
  have h : rational2fraction (some "0,5/-2".toList) = .ok (-1, 4) := by
    simp +decide [rational2fraction, splitSlash, matchNum, combine, mdc]
  exact ⟨h, rational2fraction_reduced _ _ _ h⟩

/-- C9: `IReal("undefined", y)` is the Undefined interval for every second
argument `y` (including a missing one, NaN, and arbitrary — even invalid —
strings): `y` is never parsed and no error is raised, at any entry mode and
for any FPU. -/
theorem undefined_shortcircuits (P : FPU) (y : Option Carg) (m : ℤ) :
    ireal_new P (some undefinedArg) y m = (.ok undefI, m) :=
  new_undefined P y m

/-- C10: the Empty interval and the Undefined interval never compare equal:
`IReal() == IReal("undefined")` and its flip are `False` (so `!=` is `True`),
because `__eq__` needs both operands Empty or equal non-NaN endpoints. -/
theorem empty_undefined_never_equal :
    (ireal_new FPU53 none none 0).1 = .ok emptyI ∧
    (ireal_new FPU53 (some undefinedArg) none 0).1 = .ok undefI ∧
    ireal_eq emptyI undefI = false ∧ ireal_eq undefI emptyI = false ∧
    ireal_ne emptyI undefI = true ∧ ireal_ne undefI emptyI = true := by
  refine ⟨rfl, ?_, rfl, rfl, rfl, rfl⟩
  exact congrArg Prod.fst (new_undefined FPU53 none 0)

/-- C2: every public operation returns with the rounding mode it was entered
with, on every exit path: the construction from (possibly failing) rational
literals, unary plus and minus, the binary arithmetic operators, reciprocal,
diameter, middle and distance.  (The rounding controller itself is modelled
from the spec; see `FPU`.) -/
theorem mode_preserved (P : FPU) (a b : Option Carg) (X Y : IReal) (o : Operand)
    (m : ℤ) :
    (ireal_new P a b m).2 = m ∧ (ireal_pos X m).2 = m ∧ (ireal_neg P X m).2 = m ∧
    (ireal_invert P X m).2 = m ∧ (ireal_add P X o m).2 = m ∧
    (ireal_sub P X o m).2 = m ∧ (ireal_mul P X o m).2 = m ∧
    (ireal_div P X o m).2 = m ∧ (ireal_diameter P X m).2 = m ∧
    (ireal_middle P X m).2 = m ∧ (ireal_distance P X Y m).2 = m :=
  ⟨new_mode P a b m, pos_mode X m, neg_mode P X m, invert_mode P X m,
    add_mode P X o m, sub_mode P X o m, mul_mode P X o m, div_mode P X o m,
    diameter_mode P X m, middle_mode P X m, distance_mode P X Y m⟩

/-- C8 counterexample: `Interval.of(1) ∈ Interval.empty()` yields `False`,
not `True` — the `self.empty and not other.empty` check fires before the
`other.empty` fast path. -/
theorem contains_in_empty_counterexample :
    (ireal_new FPU53 (some (.num 1)) none 0).1 = .ok ⟨F.fin 1, F.fin 1, false⟩ ∧
    (ireal_new FPU53 none none 0).1 = .ok emptyI ∧
    ¬(ireal_contains FPU53 emptyI (.ival ⟨F.fin 1, F.fin 1, false⟩) 0).1 = .ok true := by
  refine ⟨congrArg Prod.fst (new_num_one FPU53 1 0), rfl, ?_⟩
  intro h
  have h2 : (Except.ok false : Except Err Bool) = .ok true := h
  simp at h2

/-- C8 amended: testing any non-Empty interval for membership in the Empty
interval yields `False`, because the `self.empty and not other.empty` check
precedes the `other.empty → True` fast path (which only applies when the
tested element is Empty). -/
theorem contains_in_empty_false (P : FPU) (X : IReal) (hne : X._empty = false)
    (m : ℤ) :
    (ireal_contains P emptyI (.ival X) m).1 = .ok false := by
  cases hu : X.undefined with
  | true =>
    simp [ireal_contains, promote_ival, emptyI, IReal.undefined, F.isnan, hu, hne]
  | false =>
    simp [ireal_contains, promote_ival, emptyI, IReal.undefined, F.isnan, hu, hne]

/-- C8 amended witness: the Proper singleton `[1, 1]` is not contained in the
Empty interval. -/
theorem contains_in_empty_false_witness :
    (⟨F.fin 1, F.fin 1, false⟩ : IReal)._empty = false ∧
    (ireal_contains FPU53 emptyI (.ival ⟨F.fin 1, F.fin 1, false⟩) 0).1 = .ok false :=
  ⟨rfl, contains_in_empty_false FPU53 ⟨F.fin 1, F.fin 1, false⟩ rfl 0⟩

section
attribute [local semireducible] Rat.add Rat.mul Rat.sub Rat.inv

set_option maxRecDepth 4000 in
/-- C3 counterexample: with a string endpoint the two-argument constructor is
not symmetric: `Interval.of("0.1", 0.5)` gets the downward-rounded double of
1/10 as lower endpoint, while `Interval.of(0.5, "0.1")` gets the
upward-rounded one, so the two intervals compare unequal. -/
theorem of_swap_counterexample :
    ofComm FPU53 (.strc "0.1".toList) (.num (1 / 2)) = false := by
  simp +decide [ofComm, interval_of2, ireal_new, parse_limits, parse_limits_sup,
    rational2fraction, splitSlash, matchNum, combine, mdc,
    floatOfInt, FPU53, undefinedArg, cargNe, cargToF]

end

/-- C3 amended: `Interval.of(a, b) == Interval.of(b, a)` holds for finite
numeric endpoints (where the constructor min/max normalization alone decides
the result); with rational-string endpoints the swap can change directed
rounding of a slot and the intervals can differ. -/
theorem of_swap_nums (P : FPU) (a b : ℚ) : ofComm P (.num a) (.num b) = true := by
  simp [ofComm, interval_of2, new_num, ireal_eq, F.feq, min_comm a b, max_comm a b]

/-- C6: for Proper `X = [x1, y1]` and `Y = [x2, y2]`, with `lo = max(x1, x2)`
and `hi = min(y1, y2)`: the union is the Undefined interval when `lo > hi`
(disjoint with a gap) and `[min(x1,x2), max(y1,y2)]` otherwise, while the hull
is always `[min(x1,x2), max(y1,y2)]` and never reports a gap. -/
theorem union_hull_eval (P : FPU) (x1 y1 x2 y2 : ℚ) (m : ℤ)
    (hX : x1 ≤ y1) (hY : x2 ≤ y2) :
    (min y1 y2 < max x1 x2 →
      ireal_or P ⟨F.fin x1, F.fin y1, false⟩ ⟨F.fin x2, F.fin y2, false⟩ m =
        (.ok undefI, m)) ∧
    (¬min y1 y2 < max x1 x2 →
      ireal_or P ⟨F.fin x1, F.fin y1, false⟩ ⟨F.fin x2, F.fin y2, false⟩ m =
        (.ok ⟨F.fin (min x1 x2), F.fin (max y1 y2), false⟩, m)) ∧
    ireal_hull P ⟨F.fin x1, F.fin y1, false⟩ ⟨F.fin x2, F.fin y2, false⟩ m =
      (.ok ⟨F.fin (min x1 x2), F.fin (max y1 y2), false⟩, m) :=
  ⟨fun h => or_eval_gap P x1 y1 x2 y2 m h,
    fun h => or_eval_join P x1 y1 x2 y2 m h,
    hull_eval P x1 y1 x2 y2 m hX⟩

/-- C6 witness: `[0, 1] ∪ [2, 3]` has a gap (so the union is Undefined) and
their hull is `[0, 3]`. -/
theorem union_hull_eval_witness :
    (0 : ℚ) ≤ 1 ∧ (2 : ℚ) ≤ 3 ∧
    ((min (1 : ℚ) 3 < max 0 2 →
      ireal_or FPU53 ⟨F.fin 0, F.fin 1, false⟩ ⟨F.fin 2, F.fin 3, false⟩ 0 =
        (.ok undefI, 0)) ∧
    (¬min (1 : ℚ) 3 < max 0 2 →
      ireal_or FPU53 ⟨F.fin 0, F.fin 1, false⟩ ⟨F.fin 2, F.fin 3, false⟩ 0 =
        (.ok ⟨F.fin (min 0 2), F.fin (max 1 3), false⟩, 0)) ∧
    ireal_hull FPU53 ⟨F.fin 0, F.fin 1, false⟩ ⟨F.fin 2, F.fin 3, false⟩ 0 =
      (.ok ⟨F.fin (min 0 2), F.fin (max 1 3), false⟩, 0)) :=
  ⟨by norm_num, by norm_num,
    union_hull_eval FPU53 0 1 2 3 0 (by norm_num) (by norm_num)⟩

/-- C5: for Proper `X = [x1, y1]`, the reciprocal is the Undefined interval
iff `0 ∈ X`, and otherwise `[1/y1 ↓, 1/x1 ↑]`; for Proper divisor
`Y = [x2, y2]`, the division is the Undefined interval iff `0 ∈ Y`, and
otherwise its endpoints are the min of the four downward-rounded and the max
of the four upward-rounded endpoint quotients. -/
theorem invert_div_eval (P : FPU) (x1 y1 x2 y2 : ℚ) (m : ℤ)
    (hX : x1 ≤ y1) (hY : x2 ≤ y2) :
    ((x1 ≤ 0 ∧ 0 ≤ y1) →
      ireal_invert P ⟨F.fin x1, F.fin y1, false⟩ m = (.ok undefI, m)) ∧
    (¬(x1 ≤ 0 ∧ 0 ≤ y1) →
      ireal_invert P ⟨F.fin x1, F.fin y1, false⟩ m =
        (.ok ⟨F.fin (P.rnd (-1) (1 / y1)), F.fin (P.rnd 1 (1 / x1)), false⟩, m)) ∧
    ((x2 ≤ 0 ∧ 0 ≤ y2) →
      ireal_div P ⟨F.fin x1, F.fin y1, false⟩ (.ival ⟨F.fin x2, F.fin y2, false⟩) m =
        (.ok undefI, m)) ∧
    (¬(x2 ≤ 0 ∧ 0 ≤ y2) →
      ireal_div P ⟨F.fin x1, F.fin y1, false⟩ (.ival ⟨F.fin x2, F.fin y2, false⟩) m =
        (.ok ⟨F.fin (min (min (min (P.rnd (-1) (x1 / x2)) (P.rnd (-1) (x1 / y2)))
                (P.rnd (-1) (y1 / x2))) (P.rnd (-1) (y1 / y2))),
              F.fin (max (max (max (P.rnd 1 (x1 / x2)) (P.rnd 1 (x1 / y2)))
                (P.rnd 1 (y1 / x2))) (P.rnd 1 (y1 / y2))), false⟩, m)) := by
  refine ⟨fun h => invert_eval_undef P x1 y1 m h.1 h.2, fun h => ?_,
    fun h => div_eval_undef P x1 y1 x2 y2 m h.1 h.2, fun h => ?_⟩
  · have hle : P.rnd (-1) (1 / y1) ≤ P.rnd 1 (1 / x1) :=
      le_trans (P.dn_le _) (le_trans (one_div_anti x1 y1 hX h) (P.le_up _))
    rw [invert_eval_ok P x1 y1 m h, min_eq_left hle, max_eq_right hle]
  · have hAB : min (min (min (P.rnd (-1) (x1 / x2)) (P.rnd (-1) (x1 / y2)))
        (P.rnd (-1) (y1 / x2))) (P.rnd (-1) (y1 / y2)) ≤
        max (max (max (P.rnd 1 (x1 / x2)) (P.rnd 1 (x1 / y2)))
          (P.rnd 1 (y1 / x2))) (P.rnd 1 (y1 / y2)) := by
      calc min (min (min (P.rnd (-1) (x1 / x2)) (P.rnd (-1) (x1 / y2)))
            (P.rnd (-1) (y1 / x2))) (P.rnd (-1) (y1 / y2)) ≤ P.rnd (-1) (x1 / x2) :=
          le_trans (min_le_left _ _) (le_trans (min_le_left _ _) (min_le_left _ _))
        _ ≤ x1 / x2 := P.dn_le _
        _ ≤ P.rnd 1 (x1 / x2) := P.le_up _
        _ ≤ max (max (max (P.rnd 1 (x1 / x2)) (P.rnd 1 (x1 / y2)))
            (P.rnd 1 (y1 / x2))) (P.rnd 1 (y1 / y2)) :=
          le_trans (le_trans (le_max_left _ _) (le_max_left _ _)) (le_max_left _ _)
    rw [div_eval_ok P x1 y1 x2 y2 m h, min_eq_left hAB, max_eq_right hAB]

/-- C5 witness: for `X = [1, 2]` and `Y = [1, 2]` (both avoiding zero) the
reciprocal and division branches are all certified at a concrete input. -/
theorem invert_div_eval_witness :
    (1 : ℚ) ≤ 2 ∧ (1 : ℚ) ≤ 2 ∧
    ((((1 : ℚ) ≤ 0 ∧ (0 : ℚ) ≤ 2) →
      ireal_invert FPU53 ⟨F.fin 1, F.fin 2, false⟩ 0 = (.ok undefI, 0)) ∧
    (¬((1 : ℚ) ≤ 0 ∧ (0 : ℚ) ≤ 2) →
      ireal_invert FPU53 ⟨F.fin 1, F.fin 2, false⟩ 0 =
        (.ok ⟨F.fin (FPU53.rnd (-1) (1 / 2)), F.fin (FPU53.rnd 1 (1 / 1)), false⟩, 0)) ∧
    (((1 : ℚ) ≤ 0 ∧ (0 : ℚ) ≤ 2) →
      ireal_div FPU53 ⟨F.fin 1, F.fin 2, false⟩ (.ival ⟨F.fin 1, F.fin 2, false⟩) 0 =
        (.ok undefI, 0)) ∧
    (¬((1 : ℚ) ≤ 0 ∧ (0 : ℚ) ≤ 2) →
      ireal_div FPU53 ⟨F.fin 1, F.fin 2, false⟩ (.ival ⟨F.fin 1, F.fin 2, false⟩) 0 =
        (.ok ⟨F.fin (min (min (min (FPU53.rnd (-1) (1 / 1)) (FPU53.rnd (-1) (1 / 2)))
                (FPU53.rnd (-1) (2 / 1))) (FPU53.rnd (-1) (2 / 2))),
              F.fin (max (max (max (FPU53.rnd 1 (1 / 1)) (FPU53.rnd 1 (1 / 2)))
                (FPU53.rnd 1 (2 / 1))) (FPU53.rnd 1 (2 / 2))), false⟩, 0))) :=
  ⟨by norm_num, by norm_num,
    invert_div_eval FPU53 1 2 1 2 0 (by norm_num) (by norm_num)⟩

/-- C1: for Proper operands `X = [x1, y1]`, `Y = [x2, y2]`, any real points
`x ∈ X`, `y ∈ Y`, and any directed FPU: whenever the computed `X ∘ Y` is
Proper for `∘ ∈ {+, −, ×, ÷}`, the exact real value `x ∘ y` lies between its
endpoints. -/
theorem arithmetic_containment (P : FPU) (x1 y1 x2 y2 : ℚ) (x y : ℝ) (m : ℤ)
    (hx1 : (x1 : ℝ) ≤ x) (hxy : x ≤ (y1 : ℝ))
    (hx2 : (x2 : ℝ) ≤ y) (hyy : y ≤ (y2 : ℝ)) :
    containsVal (ireal_add P ⟨F.fin x1, F.fin y1, false⟩
      (.ival ⟨F.fin x2, F.fin y2, false⟩) m) (x + y) ∧
    containsVal (ireal_sub P ⟨F.fin x1, F.fin y1, false⟩
      (.ival ⟨F.fin x2, F.fin y2, false⟩) m) (x - y) ∧
    containsVal (ireal_mul P ⟨F.fin x1, F.fin y1, false⟩
      (.ival ⟨F.fin x2, F.fin y2, false⟩) m) (x * y) ∧
    containsVal (ireal_div P ⟨F.fin x1, F.fin y1, false⟩
      (.ival ⟨F.fin x2, F.fin y2, false⟩) m) (x / y) := by
  refine ⟨?_, ?_, ?_, ?_⟩
  · intro a b h
    rw [add_eval] at h
    simp only [Except.ok.injEq, IReal.mk.injEq, F.fin.injEq, and_true] at h
    obtain ⟨ha, hb⟩ := h
    subst ha hb
    constructor
    · have h1 : (min (P.rnd (-1) (x1 + x2)) (P.rnd 1 (y1 + y2)) : ℚ) ≤ x1 + x2 :=
        le_trans (min_le_left _ _) (P.dn_le _)
      have h2 : ((min (P.rnd (-1) (x1 + x2)) (P.rnd 1 (y1 + y2)) : ℚ) : ℝ) ≤
          (x1 : ℝ) + (x2 : ℝ) := by
        exact_mod_cast h1
      linarith
    · have h1 : (y1 + y2 : ℚ) ≤ max (P.rnd (-1) (x1 + x2)) (P.rnd 1 (y1 + y2)) :=
        le_trans (P.le_up _) (le_max_right _ _)
      have h2 : (y1 : ℝ) + (y2 : ℝ) ≤
          ((max (P.rnd (-1) (x1 + x2)) (P.rnd 1 (y1 + y2)) : ℚ) : ℝ) := by
        exact_mod_cast h1
      linarith
  · intro a b h
    rw [sub_eval] at h
    simp only [Except.ok.injEq, IReal.mk.injEq, F.fin.injEq, and_true] at h
    obtain ⟨ha, hb⟩ := h
    subst ha hb
    constructor
    · have h1 : (min (P.rnd (-1) (x1 - y2)) (P.rnd 1 (y1 - x2)) : ℚ) ≤ x1 - y2 :=
        le_trans (min_le_left _ _) (P.dn_le _)
      have h2 : ((min (P.rnd (-1) (x1 - y2)) (P.rnd 1 (y1 - x2)) : ℚ) : ℝ) ≤
          (x1 : ℝ) - (y2 : ℝ) := by
        exact_mod_cast h1
      linarith
    · have h1 : (y1 - x2 : ℚ) ≤ max (P.rnd (-1) (x1 - y2)) (P.rnd 1 (y1 - x2)) :=
        le_trans (P.le_up _) (le_max_right _ _)
      have h2 : (y1 : ℝ) - (x2 : ℝ) ≤
          ((max (P.rnd (-1) (x1 - y2)) (P.rnd 1 (y1 - x2)) : ℚ) : ℝ) := by
        exact_mod_cast h1
      linarith
  · intro a b h
    rw [mul_eval] at h
    simp only [Except.ok.injEq, IReal.mk.injEq, F.fin.injEq, and_true] at h
    obtain ⟨ha, hb⟩ := h
    subst ha hb
    constructor
    · have hq : (min
          (min (min (min (P.rnd (-1) (x1 * x2)) (P.rnd (-1) (x1 * y2)))
            (P.rnd (-1) (y1 * x2))) (P.rnd (-1) (y1 * y2)))
          (max (max (max (P.rnd 1 (x1 * x2)) (P.rnd 1 (x1 * y2)))
            (P.rnd 1 (y1 * x2))) (P.rnd 1 (y1 * y2))) : ℚ) ≤
          min (min (min (x1 * x2) (x1 * y2)) (y1 * x2)) (y1 * y2) :=
        le_trans (min_le_left _ _)
          (min_le_min (min_le_min (min_le_min (P.dn_le _) (P.dn_le _)) (P.dn_le _))
            (P.dn_le _))
      have hr : ((min
          (min (min (min (P.rnd (-1) (x1 * x2)) (P.rnd (-1) (x1 * y2)))
            (P.rnd (-1) (y1 * x2))) (P.rnd (-1) (y1 * y2)))
          (max (max (max (P.rnd 1 (x1 * x2)) (P.rnd 1 (x1 * y2)))
            (P.rnd 1 (y1 * x2))) (P.rnd 1 (y1 * y2))) : ℚ) : ℝ) ≤
          min (min (min ((x1 : ℝ) * x2) ((x1 : ℝ) * y2)) ((y1 : ℝ) * x2))
            ((y1 : ℝ) * y2) := by
        exact_mod_cast hq
      exact le_trans hr (mul_corner_lo _ _ _ _ x y hx1 hxy hx2 hyy)
    · have hq : (max (max (max (x1 * x2) (x1 * y2)) (y1 * x2)) (y1 * y2) : ℚ) ≤
          max
            (min (min (min (P.rnd (-1) (x1 * x2)) (P.rnd (-1) (x1 * y2)))
              (P.rnd (-1) (y1 * x2))) (P.rnd (-1) (y1 * y2)))
            (max (max (max (P.rnd 1 (x1 * x2)) (P.rnd 1 (x1 * y2)))
              (P.rnd 1 (y1 * x2))) (P.rnd 1 (y1 * y2))) :=
        le_trans
          (max_le_max (max_le_max (max_le_max (P.le_up _) (P.le_up _)) (P.le_up _))
            (P.le_up _)) (le_max_right _ _)
      have hr : max (max (max ((x1 : ℝ) * x2) ((x1 : ℝ) * y2)) ((y1 : ℝ) * x2))
            ((y1 : ℝ) * y2) ≤
          ((max
            (min (min (min (P.rnd (-1) (x1 * x2)) (P.rnd (-1) (x1 * y2)))
              (P.rnd (-1) (y1 * x2))) (P.rnd (-1) (y1 * y2)))
            (max (max (max (P.rnd 1 (x1 * x2)) (P.rnd 1 (x1 * y2)))
              (P.rnd 1 (y1 * x2))) (P.rnd 1 (y1 * y2))) : ℚ) : ℝ) := by
        exact_mod_cast hq
      exact le_trans (mul_corner_hi _ _ _ _ x y hx1 hxy hx2 hyy) hr
  · by_cases hz : x2 ≤ 0 ∧ 0 ≤ y2
    · intro a b h
      rw [div_eval_undef P x1 y1 x2 y2 m hz.1 hz.2] at h
      simp [undefI] at h
    · intro a b h
      rw [div_eval_ok P x1 y1 x2 y2 m hz] at h
      simp only [Except.ok.injEq, IReal.mk.injEq, F.fin.injEq, and_true] at h
      obtain ⟨ha, hb⟩ := h
      subst ha hb
      have hzR : 0 < (x2 : ℝ) ∨ (y2 : ℝ) < 0 := by
        rcases not_and_or.mp hz with h1 | h1
        · left
          exact_mod_cast not_le.mp h1
        · right
          exact_mod_cast not_le.mp h1
      constructor
      · have hq : (min
            (min (min (min (P.rnd (-1) (x1 / x2)) (P.rnd (-1) (x1 / y2)))
              (P.rnd (-1) (y1 / x2))) (P.rnd (-1) (y1 / y2)))
            (max (max (max (P.rnd 1 (x1 / x2)) (P.rnd 1 (x1 / y2)))
              (P.rnd 1 (y1 / x2))) (P.rnd 1 (y1 / y2))) : ℚ) ≤
            min (min (min (x1 / x2) (x1 / y2)) (y1 / x2)) (y1 / y2) :=
          le_trans (min_le_left _ _)
            (min_le_min (min_le_min (min_le_min (P.dn_le _) (P.dn_le _)) (P.dn_le _))
              (P.dn_le _))
        have hr : ((min
            (min (min (min (P.rnd (-1) (x1 / x2)) (P.rnd (-1) (x1 / y2)))
              (P.rnd (-1) (y1 / x2))) (P.rnd (-1) (y1 / y2)))
            (max (max (max (P.rnd 1 (x1 / x2)) (P.rnd 1 (x1 / y2)))
              (P.rnd 1 (y1 / x2))) (P.rnd 1 (y1 / y2))) : ℚ) : ℝ) ≤
            min (min (min ((x1 : ℝ) / x2) ((x1 : ℝ) / y2)) ((y1 : ℝ) / x2))
              ((y1 : ℝ) / y2) := by
          exact_mod_cast hq
        exact le_trans hr (div_corner_lo _ _ _ _ x y hx1 hxy hx2 hyy hzR)
      · have hq : (max (max (max (x1 / x2) (x1 / y2)) (y1 / x2)) (y1 / y2) : ℚ) ≤
            max
              (min (min (min (P.rnd (-1) (x1 / x2)) (P.rnd (-1) (x1 / y2)))
                (P.rnd (-1) (y1 / x2))) (P.rnd (-1) (y1 / y2)))
              (max (max (max (P.rnd 1 (x1 / x2)) (P.rnd 1 (x1 / y2)))
                (P.rnd 1 (y1 / x2))) (P.rnd 1 (y1 / y2))) :=
          le_trans
            (max_le_max (max_le_max (max_le_max (P.le_up _) (P.le_up _)) (P.le_up _))
              (P.le_up _)) (le_max_right _ _)
        have hr : max (max (max ((x1 : ℝ) / x2) ((x1 : ℝ) / y2)) ((y1 : ℝ) / x2))
              ((y1 : ℝ) / y2) ≤
            ((max
              (min (min (min (P.rnd (-1) (x1 / x2)) (P.rnd (-1) (x1 / y2)))
                (P.rnd (-1) (y1 / x2))) (P.rnd (-1) (y1 / y2)))
              (max (max (max (P.rnd 1 (x1 / x2)) (P.rnd 1 (x1 / y2)))
                (P.rnd 1 (y1 / x2))) (P.rnd 1 (y1 / y2))) : ℚ) : ℝ) := by
          exact_mod_cast hq
        exact le_trans (div_corner_hi _ _ _ _ x y hx1 hxy hx2 hyy hzR) hr

/-- C1 witness: with `X = [0, 1]`, `Y = [2, 3]`, `x = 1/2`, `y = 5/2`, the four
containment statements hold at a concrete input. -/
theorem arithmetic_containment_witness :
    ((0 : ℚ) : ℝ) ≤ 1 / 2 ∧ (1 / 2 : ℝ) ≤ ((1 : ℚ) : ℝ) ∧
    ((2 : ℚ) : ℝ) ≤ 5 / 2 ∧ (5 / 2 : ℝ) ≤ ((3 : ℚ) : ℝ) ∧
    (containsVal (ireal_add FPU53 ⟨F.fin 0, F.fin 1, false⟩
      (.ival ⟨F.fin 2, F.fin 3, false⟩) 0) (1 / 2 + 5 / 2) ∧
    containsVal (ireal_sub FPU53 ⟨F.fin 0, F.fin 1, false⟩
      (.ival ⟨F.fin 2, F.fin 3, false⟩) 0) (1 / 2 - 5 / 2) ∧
    containsVal (ireal_mul FPU53 ⟨F.fin 0, F.fin 1, false⟩
      (.ival ⟨F.fin 2, F.fin 3, false⟩) 0) (1 / 2 * (5 / 2)) ∧
    containsVal (ireal_div FPU53 ⟨F.fin 0, F.fin 1, false⟩
      (.ival ⟨F.fin 2, F.fin 3, false⟩) 0) (1 / 2 / (5 / 2))) :=
  ⟨by norm_num, by norm_num, by norm_num, by norm_num,
    arithmetic_containment FPU53 0 1 2 3 (1 / 2) (5 / 2) 0
      (by norm_num) (by norm_num) (by norm_num) (by norm_num)⟩

/-- The three shapes two well-formed non-empty operands can take when at
least one of them is Undefined. -/
theorem wf_shapes (X Y : IReal) (hWX : WF X) (hWY : WF Y)
    (he1 : X._empty = false) (he2 : Y._empty = false)
    (hu : (X.undefined || Y.undefined) = true) :
    (X = ⟨F.nan, F.nan, false⟩ ∧ Y = ⟨F.nan, F.nan, false⟩) ∨
    (X = ⟨F.nan, F.nan, false⟩ ∧ ∃ a b : ℚ, Y = ⟨F.fin a, F.fin b, false⟩) ∨
    (Y = ⟨F.nan, F.nan, false⟩ ∧ ∃ a b : ℚ, X = ⟨F.fin a, F.fin b, false⟩) := by
  rcases (by simpa using hu : X.undefined = true ∨ Y.undefined = true) with hXu | hYu
  · by_cases hYu : Y.undefined = true
    · exact Or.inl ⟨wf_undefined_nan X hWX hXu, wf_undefined_nan Y hWY hYu⟩
    · have hYf : Y.undefined = false := by simpa using hYu
      exact Or.inr (Or.inl ⟨wf_undefined_nan X hWX hXu, wf_proper_fin Y hWY he2 hYf⟩)
  · by_cases hXu : X.undefined = true
    · exact Or.inl ⟨wf_undefined_nan X hWX hXu, wf_undefined_nan Y hWY hYu⟩
    · have hXf : X.undefined = false := by simpa using hXu
      exact Or.inr (Or.inr ⟨wf_undefined_nan Y hWY hYu, wf_proper_fin X hWX he1 hXf⟩)

/-- C4: for the binary operators `+ − × ÷` on well-formed operands: if either
operand is Empty the operation raises `EmptyIntervalError` regardless of the
other operand, and if neither is Empty while at least one is Undefined the
operation returns the Undefined interval without raising. -/
theorem error_dispatch (P : FPU) (X Y : IReal) (m : ℤ) (hWX : WF X) (hWY : WF Y) :
    C4Op (ireal_add P X (.ival Y) m) X Y m ∧
    C4Op (ireal_sub P X (.ival Y) m) X Y m ∧
    C4Op (ireal_mul P X (.ival Y) m) X Y m ∧
    C4Op (ireal_div P X (.ival Y) m) X Y m := by
  refine ⟨⟨?_, ?_⟩, ⟨?_, ?_⟩, ⟨?_, ?_⟩, ⟨?_, ?_⟩⟩
  · intro he
    simp [ireal_add, promote_ival, he]
  · intro he1 he2 hu
    rcases wf_shapes X Y hWX hWY he1 he2 hu with ⟨hX, hY⟩ | ⟨hX, a, b, hY⟩ |
      ⟨hY, a, b, hX⟩ <;> subst hX <;> subst hY <;>
      simp [ireal_add, promote_ival, F.rnd, F.add, wrap_nan_left]
  · intro he
    simp [ireal_sub, promote_ival, he]
  · intro he1 he2 hu
    rcases wf_shapes X Y hWX hWY he1 he2 hu with ⟨hX, hY⟩ | ⟨hX, a, b, hY⟩ |
      ⟨hY, a, b, hX⟩ <;> subst hX <;> subst hY <;>
      simp [ireal_sub, promote_ival, F.rnd, F.sub, wrap_nan_left]
  · intro he
    simp [ireal_mul, promote_ival, he]
  · intro he1 he2 hu
    rcases wf_shapes X Y hWX hWY he1 he2 hu with ⟨hX, hY⟩ | ⟨hX, a, b, hY⟩ |
      ⟨hY, a, b, hX⟩ <;> subst hX <;> subst hY <;>
      simp [ireal_mul, promote_ival, F.rnd, F.mul, pymin_nan_left, pymax_nan_left,
        wrap_nan_left]
  · intro he
    simp [ireal_div, promote_ival, he]
  · intro he1 he2 hu
    rcases wf_shapes X Y hWX hWY he1 he2 hu with ⟨hX, hY⟩ | ⟨hX, a, b, hY⟩ |
      ⟨hY, a, b, hX⟩
    · subst hX
      subst hY
      simp [ireal_div, promote_ival, ireal_contains, promote, new_num_one,
        IReal.undefined, F.isnan, F.div, F.rnd, pymin_nan_left, pymax_nan_left,
        wrap_nan_left]
    · subst hX
      subst hY
      cases hb : (decide (a ≤ 0) && decide (0 ≤ b)) with
      | true =>
        simp [ireal_div, promote_ival, contains_zero_eval, hb, new_undefined]
      | false =>
        simp [ireal_div, promote_ival, contains_zero_eval, hb, F.div, F.rnd,
          pymin_nan_left, pymax_nan_left, wrap_nan_left]
    · subst hY
      subst hX
      simp [ireal_div, promote_ival, ireal_contains, promote, new_num_one,
        IReal.undefined, F.isnan, F.div, F.rnd, pymin_nan_left, pymax_nan_left,
        wrap_nan_left]

/-- C4 witness: with `X` the Undefined interval and `Y = [1, 1]` — both
well-formed and non-empty — the dispatch contract holds for all four
operators at a concrete input. -/
theorem error_dispatch_witness :
    WF ⟨F.nan, F.nan, false⟩ ∧ WF ⟨F.fin 1, F.fin 1, false⟩ ∧
    (C4Op (ireal_add FPU53 ⟨F.nan, F.nan, false⟩ (.ival ⟨F.fin 1, F.fin 1, false⟩) 0)
        ⟨F.nan, F.nan, false⟩ ⟨F.fin 1, F.fin 1, false⟩ 0 ∧
      C4Op (ireal_sub FPU53 ⟨F.nan, F.nan, false⟩ (.ival ⟨F.fin 1, F.fin 1, false⟩) 0)
        ⟨F.nan, F.nan, false⟩ ⟨F.fin 1, F.fin 1, false⟩ 0 ∧
      C4Op (ireal_mul FPU53 ⟨F.nan, F.nan, false⟩ (.ival ⟨F.fin 1, F.fin 1, false⟩) 0)
        ⟨F.nan, F.nan, false⟩ ⟨F.fin 1, F.fin 1, false⟩ 0 ∧
      C4Op (ireal_div FPU53 ⟨F.nan, F.nan, false⟩ (.ival ⟨F.fin 1, F.fin 1, false⟩) 0)
        ⟨F.nan, F.nan, false⟩ ⟨F.fin 1, F.fin 1, false⟩ 0) :=
  ⟨Or.inl ⟨rfl, rfl⟩, Or.inr ⟨rfl, rfl, rfl⟩,
    error_dispatch FPU53 ⟨F.nan, F.nan, false⟩ ⟨F.fin 1, F.fin 1, false⟩ 0
      (Or.inl ⟨rfl, rfl⟩) (Or.inr ⟨rfl, rfl, rfl⟩)⟩

end IntPy
